import Mathlib

/-!
Verification of the amortization / EMI engine of `AG.py`.

The engine is embedded shallowly over `ℚ` (exact rational arithmetic in
place of Python floats).  Monetary amounts and rates are rationals, the
term in years is a natural number, and the month loop of the schedule
builders is modelled by structural recursion on the remaining number of
iterations (the Python loop `for month in range(1, n + 1)` runs at most
`n` times).  A Python `ZeroDivisionError` is modelled by `Option`:
a function that can raise returns `none` exactly where Python raises.
-/

namespace AG

/-- One row of the amortization table, mirroring the columns
`["Month", "Principal", "Interest", "Balance"]` of `AG.py`. -/
structure Row where
  month : ℕ
  principal : ℚ
  interest : ℚ
  balance : ℚ
deriving Repr, DecidableEq

/-- `calculate_mortgage(P, annual_rate, years, extra_payment)` from `AG.py`
(lines 25-32):

`r = (annual_rate / 100) / 12`, `n = years * 12`; if `r > 0` the annuity
formula `M = P*r*(1+r)**n / ((1+r)**n - 1)`, otherwise `M = P / n`;
returns `M + extra_payment`.  The result is `none` where Python would
raise `ZeroDivisionError` (a zero denominator). -/
def calculate_mortgage (P annual_rate : ℚ) (years : ℕ) (extra_payment : ℚ) :
    Option ℚ :=
  let r := annual_rate / 100 / 12
  let n := years * 12
  if 0 < r then
    if (1 + r) ^ n - 1 = 0 then none
    else some ((P * r * (1 + r) ^ n) / ((1 + r) ^ n - 1) + extra_payment)
  else
    if (n : ℚ) = 0 then none
    else some (P / (n : ℚ) + extra_payment)

/-- The loop body of `amortization_schedule` (`AG.py` lines 40-51),
recursing on the number of remaining iterations.  Each iteration:
`interest = balance * r if r > 0 else 0`; `principal = M - interest`
(`M` is the constant value `calculate_mortgage` returns on every call);
`balance -= principal`; if `balance < 0` then `balance = 0` followed by
`principal += balance` (the post-clamp adjustment, which adds the already
zeroed balance); append the row; break when `balance == 0`. -/
def scheduleAux (r M : ℚ) : ℕ → ℕ → ℚ → List Row
  | 0, _, _ => []
  | fuel + 1, month, balance =>
    let interest := if 0 < r then balance * r else 0
    let principal := M - interest
    let balance1 := balance - principal
    let balance2 := if balance1 < 0 then 0 else balance1
    let principal2 := if balance1 < 0 then principal + balance2 else principal
    if balance2 = 0 then [⟨month, principal2, interest, balance2⟩]
    else ⟨month, principal2, interest, balance2⟩ ::
      scheduleAux r M fuel (month + 1) balance2

/-- `amortization_schedule(P, annual_rate, years, extra_payment)` from
`AG.py` (lines 35-53).  When `n = years * 12 = 0` the Python loop body
never runs, so the empty table is returned and `calculate_mortgage` is
never called; otherwise the first iteration calls `calculate_mortgage`
and any `ZeroDivisionError` propagates (`none`). -/
def amortization_schedule (P annual_rate : ℚ) (years : ℕ)
    (extra_payment : ℚ) : Option (List Row) :=
  let r := annual_rate / 100 / 12
  let n := years * 12
  if n = 0 then some []
  else
    match calculate_mortgage P annual_rate years extra_payment with
    | none => none
    | some M => some (scheduleAux r M n 1 P)

/-- `calculate_emi(P, r, n)` from `AG.py` (lines 148-153): converts to the
monthly rate and month count, then `P / n` when the monthly rate is `0`
and the annuity formula otherwise.  `none` models `ZeroDivisionError`. -/
def calculate_emi (P annual_rate : ℚ) (years : ℕ) : Option ℚ :=
  let r := annual_rate / 100 / 12
  let n := years * 12
  if r = 0 then
    if (n : ℚ) = 0 then none else some (P / (n : ℚ))
  else
    if (1 + r) ^ n - 1 = 0 then none
    else some ((P * r * (1 + r) ^ n) / ((1 + r) ^ n - 1))

/-- The script-level global state read by `generate_amortization_schedule`:
the variable `emi` assigned at `AG.py` line 155.  It is the only name read
by the body of the function that is not one of its parameters. -/
structure GlobalEnv where
  emi : ℚ
deriving Repr, DecidableEq

/-- The loop body of `generate_amortization_schedule` (`AG.py` lines
184-192): identical to `scheduleAux` except that the payment is the
script-global `emi` and the clamp `balance = 0` is not followed by any
adjustment of `principal`. -/
def genScheduleAux (emi r : ℚ) : ℕ → ℕ → ℚ → List Row
  | 0, _, _ => []
  | fuel + 1, month, balance =>
    let interest := if 0 < r then balance * r else 0
    let principal := emi - interest
    let balance1 := balance - principal
    let balance2 := if balance1 < 0 then 0 else balance1
    if balance2 = 0 then [⟨month, principal, interest, balance2⟩]
    else ⟨month, principal, interest, balance2⟩ ::
      genScheduleAux emi r fuel (month + 1) balance2

/-- `generate_amortization_schedule(P, r, n)` from `AG.py` (lines
179-193).  The global environment is passed explicitly: the body computes
`principal = emi - interest` from the script-global `emi`, not from its
parameters.  No division occurs, so the function is total. -/
def generate_amortization_schedule (g : GlobalEnv) (P annual_rate : ℚ)
    (years : ℕ) : List Row :=
  let r := annual_rate / 100 / 12
  let n := years * 12
  genScheduleAux g.emi r n 1 P

/-- `amortization_schedule` with the global environment of the script threaded
through, to state that its result does not depend on it: the body of
`amortization_schedule` (`AG.py` lines 35-53) reads no global variable. -/
def amortization_schedule_env (g : GlobalEnv) (P annual_rate : ℚ)
    (years : ℕ) (extra_payment : ℚ) : Option (List Row) :=
  amortization_schedule P annual_rate years extra_payment

/-- The variant of `scheduleAux` with the dead post-clamp line
`principal += balance` removed, used to state that the line has no
effect on the produced rows. -/
def scheduleAuxNoAdjust (r M : ℚ) : ℕ → ℕ → ℚ → List Row
  | 0, _, _ => []
  | fuel + 1, month, balance =>
    let interest := if 0 < r then balance * r else 0
    let principal := M - interest
    let balance1 := balance - principal
    let balance2 := if balance1 < 0 then 0 else balance1
    if balance2 = 0 then [⟨month, principal, interest, balance2⟩]
    else ⟨month, principal, interest, balance2⟩ ::
      scheduleAuxNoAdjust r M fuel (month + 1) balance2

/-- `amortization_schedule` built on the adjustment-free loop. -/
def amortization_schedule_noadjust (P annual_rate : ℚ) (years : ℕ)
    (extra_payment : ℚ) : Option (List Row) :=
  let r := annual_rate / 100 / 12
  let n := years * 12
  if n = 0 then some []
  else
    match calculate_mortgage P annual_rate years extra_payment with
    | none => none
    | some M => some (scheduleAuxNoAdjust r M n 1 P)

/-- Sum of the `Principal` column of a schedule. -/
def sumPrincipal (l : List Row) : ℚ := (l.map Row.principal).sum

/-- `annuityFactor u f = 1 + u + ... + u^(f-1)`: the factor by which a
constant payment is weighted over `f` periods at growth factor `u`. -/
def annuityFactor (u : ℚ) : ℕ → ℚ
  | 0 => 0
  | f + 1 => annuityFactor u f + u ^ f

/-- Closed form of the value `calculate_mortgage` returns before the
`extra_payment` is added, split over the same branches as the code. -/
def mortgagePayment (P annual_rate : ℚ) (years : ℕ) : ℚ :=
  if 0 < annual_rate / 100 / 12 then
    (P * (annual_rate / 100 / 12) *
        (1 + annual_rate / 100 / 12) ^ (years * 12)) /
      ((1 + annual_rate / 100 / 12) ^ (years * 12) - 1)
  else P / ((years * 12 : ℕ) : ℚ)

section Lemmas

variable {r M b P rate extra : ℚ} {fuel month years : ℕ}

theorem interest_ite_eq (hr : 0 ≤ r) :
    (if 0 < r then b * r else 0) = b * r := by
  rcases hr.lt_or_eq with h | h
  · rw [if_pos h]
  · rw [if_neg (by rw [← h]; exact lt_irrefl 0), ← h, mul_zero]

theorem scheduleAux_succ (r M b : ℚ) (fuel month : ℕ) :
    scheduleAux r M (fuel + 1) month b =
      (fun i =>
        if b - (M - i) < 0 then [⟨month, M - i, i, 0⟩]
        else if b - (M - i) = 0 then [⟨month, M - i, i, 0⟩]
        else ⟨month, M - i, i, b - (M - i)⟩ ::
          scheduleAux r M fuel (month + 1) (b - (M - i)))
      (if 0 < r then b * r else 0) := by
  rw [scheduleAux]
  generalize (if 0 < r then b * r else 0) = i
  by_cases h1 : b - (M - i) < 0
  · simp [h1]
  · by_cases h2 : b - (M - i) = 0
    · simp [h1, h2]
    · simp [h1, h2]

theorem scheduleAux_succ_neg (hr : 0 ≤ r)
    (h : b - (M - b * r) < 0) :
    scheduleAux r M (fuel + 1) month b = [⟨month, M - b * r, b * r, 0⟩] := by
  rw [scheduleAux_succ, interest_ite_eq hr]
  dsimp only
  rw [if_pos h]

theorem scheduleAux_succ_zero (hr : 0 ≤ r)
    (h : b - (M - b * r) = 0) :
    scheduleAux r M (fuel + 1) month b = [⟨month, M - b * r, b * r, 0⟩] := by
  have hnot : ¬ b - (M - b * r) < 0 := by rw [h]; exact lt_irrefl 0
  rw [scheduleAux_succ, interest_ite_eq hr]
  dsimp only
  rw [if_neg hnot, if_pos h]

theorem scheduleAux_succ_pos (hr : 0 ≤ r)
    (h : 0 < b - (M - b * r)) :
    scheduleAux r M (fuel + 1) month b =
      ⟨month, M - b * r, b * r, b - (M - b * r)⟩ ::
        scheduleAux r M fuel (month + 1) (b - (M - b * r)) := by
  have hnot : ¬ b - (M - b * r) < 0 := not_lt.mpr h.le
  have hne : b - (M - b * r) ≠ 0 := ne_of_gt h
  rw [scheduleAux_succ, interest_ite_eq hr]
  dsimp only
  rw [if_neg hnot, if_neg hne]

theorem scheduleAux_length_le (r M : ℚ) :
    ∀ (fuel month : ℕ) (b : ℚ),
      (scheduleAux r M fuel month b).length ≤ fuel := by
  intro fuel
  induction fuel with
  | zero => intro month b; simp [scheduleAux]
  | succ f ih =>
    intro month b
    rw [scheduleAux_succ]
    generalize (if 0 < r then b * r else 0) = i
    by_cases h1 : b - (M - i) < 0
    · simp [h1]
    · by_cases h2 : b - (M - i) = 0
      · simp [h1, h2]
      · have hrec := ih (month + 1) (b - (M - i))
        simp only [h1, h2, if_false, List.length_cons]
        omega

theorem annuityFactor_nonneg {u : ℚ} (hu : 0 ≤ u) :
    ∀ f : ℕ, 0 ≤ annuityFactor u f := by
  intro f
  induction f with
  | zero => simp [annuityFactor]
  | succ g ih =>
    have : 0 ≤ u ^ g := pow_nonneg hu g
    simp only [annuityFactor]
    linarith

theorem annuityFactor_pos {u : ℚ} (hu : 0 < u) (f : ℕ) :
    0 < annuityFactor u (f + 1) := by
  have h1 : 0 ≤ annuityFactor u f := annuityFactor_nonneg hu.le f
  have h2 : 0 < u ^ f := pow_pos hu f
  simp only [annuityFactor]
  linarith

theorem annuityFactor_one : ∀ f : ℕ, annuityFactor 1 f = f := by
  intro f
  induction f with
  | zero => simp [annuityFactor]
  | succ g ih => simp [annuityFactor, ih]

theorem annuityFactor_mul_sub_one (u : ℚ) :
    ∀ f : ℕ, annuityFactor u f * (u - 1) = u ^ f - 1 := by
  intro f
  induction f with
  | zero => simp [annuityFactor]
  | succ g ih =>
    have : (annuityFactor u g + u ^ g) * (u - 1)
        = annuityFactor u g * (u - 1) + u ^ g * (u - 1) := by ring
    simp only [annuityFactor, this, ih]
    rw [pow_succ]
    ring

theorem one_lt_pow_of_lt {u : ℚ} (hu : 1 < u) {f : ℕ} (hf : f ≠ 0) :
    1 < u ^ f := by
  calc 1 = 1 ^ f := (one_pow f).symm
  _ < u ^ f := by
    apply pow_lt_pow_left hu (by norm_num) hf

/-- `calculate_mortgage` succeeds for a positive term and returns the
closed-form branch value plus the extra payment. -/
theorem calculate_mortgage_eq (P rate extra : ℚ) {years : ℕ}
    (hy : years ≠ 0) :
    calculate_mortgage P rate years extra
      = some (mortgagePayment P rate years + extra) := by
  have hn : years * 12 ≠ 0 := by omega
  simp only [calculate_mortgage, mortgagePayment]
  by_cases hr : 0 < rate / 100 / 12
  · have hgt : (1 : ℚ) < 1 + rate / 100 / 12 := by linarith
    have hne : (1 + rate / 100 / 12) ^ (years * 12) - 1 ≠ 0 :=
      sub_ne_zero.mpr (ne_of_gt (one_lt_pow_of_lt hgt hn))
    rw [if_pos hr, if_pos hr, if_neg hne]
  · have hcast : ((years * 12 : ℕ) : ℚ) ≠ 0 := Nat.cast_ne_zero.mpr hn
    rw [if_neg hr, if_neg hr, if_neg hcast]

theorem mortgagePayment_pos {P rate : ℚ} {years : ℕ}
    (hP : 0 < P) (hrate : 0 ≤ rate) (hy : years ≠ 0) :
    0 < mortgagePayment P rate years := by
  have hn : years * 12 ≠ 0 := by omega
  simp only [mortgagePayment]
  by_cases hr : 0 < rate / 100 / 12
  · have hgt : (1 : ℚ) < 1 + rate / 100 / 12 := by linarith
    have hpow : (1 : ℚ) < (1 + rate / 100 / 12) ^ (years * 12) :=
      one_lt_pow_of_lt hgt hn
    rw [if_pos hr]
    apply div_pos
    · have : (0 : ℚ) < (1 + rate / 100 / 12) ^ (years * 12) := by linarith
      positivity
    · linarith
  · have hcast : (0 : ℚ) < ((years * 12 : ℕ) : ℚ) := by
      exact_mod_cast Nat.pos_of_ne_zero hn
    rw [if_neg hr]
    exact div_pos hP hcast

/-- The defining identity of the annuity payment: paying
`mortgagePayment` every month for `years * 12` months exactly retires
the principal grown at the monthly rate. -/
theorem mortgagePayment_invariant {P rate : ℚ} {years : ℕ}
    (hrate : 0 ≤ rate) (hy : years ≠ 0) :
    P * (1 + rate / 100 / 12) ^ (years * 12)
      = mortgagePayment P rate years
          * annuityFactor (1 + rate / 100 / 12) (years * 12) := by
  have hn : years * 12 ≠ 0 := by omega
  have hr0 : 0 ≤ rate / 100 / 12 := by positivity
  simp only [mortgagePayment]
  rcases hr0.lt_or_eq with hr | hr
  · have hgt : (1 : ℚ) < 1 + rate / 100 / 12 := by linarith
    have hpow : (1 : ℚ) < (1 + rate / 100 / 12) ^ (years * 12) :=
      one_lt_pow_of_lt hgt hn
    have hden : (1 + rate / 100 / 12) ^ (years * 12) - 1 ≠ 0 :=
      sub_ne_zero.mpr (ne_of_gt hpow)
    have hgeom : annuityFactor (1 + rate / 100 / 12) (years * 12)
          * (rate / 100 / 12)
        = (1 + rate / 100 / 12) ^ (years * 12) - 1 := by
      have := annuityFactor_mul_sub_one (1 + rate / 100 / 12) (years * 12)
      have harg : (1 + rate / 100 / 12) - 1 = rate / 100 / 12 := by ring
      rw [harg] at this
      exact this
    rw [if_pos hr, div_mul_eq_mul_div]
    have hstep : P * (rate / 100 / 12) * (1 + rate / 100 / 12) ^ (years * 12)
          * annuityFactor (1 + rate / 100 / 12) (years * 12)
        = P * (1 + rate / 100 / 12) ^ (years * 12)
          * ((1 + rate / 100 / 12) ^ (years * 12) - 1) := by
      calc P * (rate / 100 / 12) * (1 + rate / 100 / 12) ^ (years * 12)
            * annuityFactor (1 + rate / 100 / 12) (years * 12)
          = P * (1 + rate / 100 / 12) ^ (years * 12)
            * (annuityFactor (1 + rate / 100 / 12) (years * 12)
                * (rate / 100 / 12)) := by ring
        _ = P * (1 + rate / 100 / 12) ^ (years * 12)
            * ((1 + rate / 100 / 12) ^ (years * 12) - 1) := by rw [hgeom]
    rw [hstep, mul_div_cancel_right₀ _ hden]
  · rw [if_neg (by rw [← hr]; exact lt_irrefl 0)]
    rw [← hr]
    have hcast : ((years * 12 : ℕ) : ℚ) ≠ 0 := Nat.cast_ne_zero.mpr hn
    have h1 : (1 : ℚ) + 0 = 1 := by norm_num
    rw [h1, annuityFactor_one, one_pow]
    field_simp

theorem sumPrincipal_nil : sumPrincipal [] = 0 := rfl

theorem sumPrincipal_cons (row : Row) (l : List Row) :
    sumPrincipal (row :: l) = row.principal + sumPrincipal l := by
  simp [sumPrincipal]

/-- Exact amortization: when the balance, the payment and the horizon
satisfy the annuity identity `b * u^f = M * annuityFactor u f`, the loop
runs for exactly `f` months, never clamps, and the principal components
sum to the opening balance. -/
theorem scheduleAux_exact (r M : ℚ) (hr : 0 ≤ r) (hM : 0 < M) :
    ∀ (f month : ℕ) (b : ℚ),
      b * (1 + r) ^ (f + 1) = M * annuityFactor (1 + r) (f + 1) →
      (scheduleAux r M (f + 1) month b).length = f + 1 ∧
      sumPrincipal (scheduleAux r M (f + 1) month b) = b := by
  have hu : (0 : ℚ) < 1 + r := by linarith
  intro f
  induction f with
  | zero =>
    intro month b hinv
    have h1 : annuityFactor (1 + r) 1 = 1 := by simp [annuityFactor]
    rw [h1, mul_one, pow_one] at hinv
    have hb : b + b * r = M := by linear_combination hinv
    have hz : b - (M - b * r) = 0 := by linarith
    rw [scheduleAux_succ_zero hr hz]
    refine ⟨rfl, ?_⟩
    simp only [sumPrincipal_cons, sumPrincipal_nil]
    linarith
  | succ f ih =>
    intro month b hinv
    have hfac : annuityFactor (1 + r) (f + 1 + 1)
        = annuityFactor (1 + r) (f + 1) + (1 + r) ^ (f + 1) := by
      simp [annuityFactor]
    rw [hfac] at hinv
    have hinv' : (b - (M - b * r)) * (1 + r) ^ (f + 1)
        = M * annuityFactor (1 + r) (f + 1) := by
      linear_combination hinv
    have hb1pos : 0 < b - (M - b * r) := by
      have hs : 0 < annuityFactor (1 + r) (f + 1) := annuityFactor_pos hu f
      have hrhs : 0 < (b - (M - b * r)) * (1 + r) ^ (f + 1) := by
        rw [hinv']; exact mul_pos hM hs
      have hpow : 0 < (1 + r) ^ (f + 1) := pow_pos hu (f + 1)
      nlinarith [hrhs, hpow]
    rw [scheduleAux_succ_pos hr hb1pos]
    obtain ⟨ihlen, ihsum⟩ := ih (month + 1) (b - (M - b * r)) hinv'
    refine ⟨?_, ?_⟩
    · simp [List.length_cons, ihlen]
    · rw [sumPrincipal_cons, ihsum]
      simp only []
      ring

/-- Bounded amortization: when the payment `M` is at least a payment
`Ms` that exactly amortizes the opening balance over the horizon, the
produced balances are non-increasing, non-negative, and the last one is
exactly `0`. -/
theorem scheduleAux_bounded (r M Ms : ℚ) (hr : 0 ≤ r) (hMs : 0 < Ms)
    (hMM : Ms ≤ M) :
    ∀ (f month : ℕ) (b : ℚ), 0 < b →
      b * (1 + r) ^ (f + 1) ≤ Ms * annuityFactor (1 + r) (f + 1) →
      List.Chain' (fun x y => y ≤ x)
          (b :: (scheduleAux r M (f + 1) month b).map Row.balance) ∧
      (∀ q ∈ (scheduleAux r M (f + 1) month b).map Row.balance, 0 ≤ q) ∧
      ((scheduleAux r M (f + 1) month b).map Row.balance).getLast?
        = some 0 := by
  have hu : (0 : ℚ) < 1 + r := by linarith
  intro f
  induction f with
  | zero =>
    intro month b hb hinv
    have h1 : annuityFactor (1 + r) 1 = 1 := by simp [annuityFactor]
    rw [h1, mul_one, pow_one] at hinv
    have hle : b - (M - b * r) ≤ 0 := by nlinarith [hinv]
    rcases hle.lt_or_eq with h | h
    · rw [scheduleAux_succ_neg hr h]
      refine ⟨?_, ?_, ?_⟩ <;> simp [hb.le]
    · rw [scheduleAux_succ_zero hr h]
      refine ⟨?_, ?_, ?_⟩ <;> simp [hb.le]
  | succ f ih =>
    intro month b hb hinv
    have hfac : annuityFactor (1 + r) (f + 1 + 1)
        = annuityFactor (1 + r) (f + 1) + (1 + r) ^ (f + 1) := by
      simp [annuityFactor]
    have hbrM : b * r < Ms := by
      rcases hr.lt_or_eq with hrpos | hrzero
      · have hgeom : annuityFactor (1 + r) (f + 1 + 1) * r
            = (1 + r) ^ (f + 1 + 1) - 1 := by
          have h0 := annuityFactor_mul_sub_one (1 + r) (f + 1 + 1)
          have harg : (1 + r) - 1 = r := by ring
          rw [harg] at h0
          exact h0
        have hmul := mul_le_mul_of_nonneg_right hinv hr
        have hpow : 0 < (1 + r) ^ (f + 1 + 1) := pow_pos hu (f + 1 + 1)
        nlinarith [hmul, hgeom, hpow, hMs]
      · have hz : b * r = 0 := by rw [← hrzero, mul_zero]
        linarith
    by_cases h1 : b - (M - b * r) < 0
    · rw [scheduleAux_succ_neg hr h1]
      refine ⟨?_, ?_, ?_⟩ <;> simp [hb.le]
    · by_cases h2 : b - (M - b * r) = 0
      · rw [scheduleAux_succ_zero hr h2]
        refine ⟨?_, ?_, ?_⟩ <;> simp [hb.le]
      · have hb1 : 0 < b - (M - b * r) :=
          lt_of_le_of_ne (not_lt.mp h1) (Ne.symm h2)
        have hpow : 0 < (1 + r) ^ (f + 1) := pow_pos hu (f + 1)
        have hinv' : (b - (M - b * r)) * (1 + r) ^ (f + 1)
            ≤ Ms * annuityFactor (1 + r) (f + 1) := by
          have hstep : (b - (M - b * r)) * (1 + r) ^ (f + 1)
              ≤ (b + b * r - Ms) * (1 + r) ^ (f + 1) := by
            apply mul_le_mul_of_nonneg_right _ hpow.le
            linarith
          have hexp : (b + b * r - Ms) * (1 + r) ^ (f + 1)
              = b * (1 + r) ^ (f + 1 + 1) - Ms * (1 + r) ^ (f + 1) := by
            ring
          rw [hfac] at hinv
          nlinarith [hstep, hexp, hinv]
        obtain ⟨c1, c2, c3⟩ := ih (month + 1) (b - (M - b * r)) hb1 hinv'
        rw [scheduleAux_succ_pos hr hb1]
        refine ⟨?_, ?_, ?_⟩
        · rw [List.map_cons, List.chain'_cons]
          refine ⟨?_, c1⟩
          show b - (M - b * r) ≤ b
          linarith
        · intro q hq
          rw [List.map_cons, List.mem_cons] at hq
          rcases hq with rfl | hq
          · exact hb1.le
          · exact c2 q hq
        · rw [List.map_cons]
          rcases hmt : (scheduleAux r M (f + 1) (month + 1)
              (b - (M - b * r))).map Row.balance with _ | ⟨a, l⟩
          · rw [hmt] at c3; simp at c3
          · rw [List.getLast?_cons_cons, ← hmt]
            exact c3

theorem scheduleAuxNoAdjust_succ (r M b : ℚ) (fuel month : ℕ) :
    scheduleAuxNoAdjust r M (fuel + 1) month b =
      (fun i =>
        if b - (M - i) < 0 then [⟨month, M - i, i, 0⟩]
        else if b - (M - i) = 0 then [⟨month, M - i, i, 0⟩]
        else ⟨month, M - i, i, b - (M - i)⟩ ::
          scheduleAuxNoAdjust r M fuel (month + 1) (b - (M - i)))
      (if 0 < r then b * r else 0) := by
  rw [scheduleAuxNoAdjust]
  generalize (if 0 < r then b * r else 0) = i
  by_cases h1 : b - (M - i) < 0
  · simp [h1]
  · by_cases h2 : b - (M - i) = 0
    · simp [h1, h2]
    · simp [h1, h2]

/-- The post-clamp adjustment `principal += balance` adds the already
zeroed balance, so removing it does not change the schedule. -/
theorem scheduleAux_eq_noAdjust (r M : ℚ) :
    ∀ (fuel month : ℕ) (b : ℚ),
      scheduleAux r M fuel month b = scheduleAuxNoAdjust r M fuel month b := by
  intro fuel
  induction fuel with
  | zero => intro month b; rfl
  | succ f ih =>
    intro month b
    rw [scheduleAux_succ, scheduleAuxNoAdjust_succ]
    dsimp only
    by_cases h1 : b - (M - (if 0 < r then b * r else 0)) < 0
    · simp [h1]
    · by_cases h2 : b - (M - (if 0 < r then b * r else 0)) = 0
      · simp [h1, h2]
      · simp [h1, h2, ih]

/-- Every emitted row satisfies `principal + interest = M`, the clamped
final row included. -/
theorem scheduleAux_row_sum (r M : ℚ) :
    ∀ (fuel month : ℕ) (b : ℚ), ∀ row ∈ scheduleAux r M fuel month b,
      row.principal + row.interest = M := by
  intro fuel
  induction fuel with
  | zero => intro month b row h; simp [scheduleAux] at h
  | succ f ih =>
    intro month b row h
    rw [scheduleAux_succ] at h
    dsimp only at h
    by_cases h1 : b - (M - (if 0 < r then b * r else 0)) < 0
    · rw [if_pos h1, List.mem_singleton] at h
      subst h
      show M - (if 0 < r then b * r else 0) + (if 0 < r then b * r else 0) = M
      ring
    · by_cases h2 : b - (M - (if 0 < r then b * r else 0)) = 0
      · rw [if_neg h1, if_pos h2, List.mem_singleton] at h
        subst h
        show M - (if 0 < r then b * r else 0) + (if 0 < r then b * r else 0) = M
        ring
      · rw [if_neg h1, if_neg h2, List.mem_cons] at h
        rcases h with rfl | h
        · show M - (if 0 < r then b * r else 0)
              + (if 0 < r then b * r else 0) = M
          ring
        · exact ih (month + 1) _ row h

/-- With a zero monthly rate every emitted row carries zero interest. -/
theorem scheduleAux_interest_zero (M : ℚ) :
    ∀ (fuel month : ℕ) (b : ℚ), ∀ row ∈ scheduleAux 0 M fuel month b,
      row.interest = 0 := by
  intro fuel
  induction fuel with
  | zero => intro month b row h; simp [scheduleAux] at h
  | succ f ih =>
    intro month b row h
    rw [scheduleAux_succ] at h
    have hz : (if (0 : ℚ) < 0 then b * 0 else 0) = 0 := by norm_num
    rw [hz] at h
    dsimp only at h
    by_cases h1 : b - (M - 0) < 0
    · rw [if_pos h1, List.mem_singleton] at h
      subst h
      rfl
    · by_cases h2 : b - (M - 0) = 0
      · rw [if_neg h1, if_pos h2, List.mem_singleton] at h
        subst h
        rfl
      · rw [if_neg h1, if_neg h2, List.mem_cons] at h
        rcases h with rfl | h
        · rfl
        · exact ih (month + 1) _ row h

theorem calculate_mortgage_zero_years (P rate extra : ℚ) :
    calculate_mortgage P rate 0 extra = none := by
  simp only [calculate_mortgage]
  by_cases hr : 0 < rate / 100 / 12
  · rw [if_pos hr,
      if_pos (by norm_num : (1 + rate / 100 / 12) ^ (0 * 12) - 1 = 0)]
  · rw [if_neg hr]
    norm_num

theorem amortization_schedule_eq {P rate extra : ℚ} {years : ℕ}
    (hy : years ≠ 0) :
    amortization_schedule P rate years extra
      = some (scheduleAux (rate / 100 / 12)
          (mortgagePayment P rate years + extra) (years * 12) 1 P) := by
  have hn : ¬ years * 12 = 0 := by omega
  simp only [amortization_schedule]
  rw [if_neg hn, calculate_mortgage_eq P rate extra hy]

theorem eq_some_getD {A : Type} (x : Option A) (d : A)
    (h : x.isSome = true) : x = some (x.getD d) := by
  cases x with
  | none => simp at h
  | some a => rfl

theorem amortization_schedule_isSome (P rate extra : ℚ) (years : ℕ) :
    (amortization_schedule P rate years extra).isSome = true := by
  by_cases hy : years = 0
  · subst hy; rfl
  · rw [amortization_schedule_eq hy]; rfl

end Lemmas

section Claims

/-- Claim C1 (counterexample): with a positive extra payment the sum of
the principal components can exceed the principal by far more than any
rounding tolerance.  For principal 1200, zero rate, one year and extra
payment 1200 the single emitted row carries principal 1300, an excess of
100 over the principal. -/
theorem C1_counterexample :
    (amortization_schedule 1200 0 1 1200).map sumPrincipal = some 1300
      ∧ (100 : ℚ) ≤ |1300 - 1200| := by
  constructor
  · norm_num [amortization_schedule, calculate_mortgage, scheduleAux,
      sumPrincipal]
  · norm_num

/-- Claim C1 (amended): for every valid `LoanParameters` with
`extra_payment = 0`, the principal components of the schedule returned by
`amortization_schedule` sum exactly to the input principal. -/
theorem C1_principal_sum_zero_extra (P rate : ℚ) (years : ℕ)
    (hP : 0 < P) (hrate : 0 ≤ rate) (hy : 1 ≤ years) :
    ∀ l, amortization_schedule P rate years 0 = some l →
      sumPrincipal l = P := by
  intro l hl
  have hy0 : years ≠ 0 := by omega
  rw [amortization_schedule_eq hy0] at hl
  simp only [Option.some.injEq] at hl
  subst hl
  rw [add_zero]
  have hr : 0 ≤ rate / 100 / 12 := by positivity
  have hM : 0 < mortgagePayment P rate years :=
    mortgagePayment_pos hP hrate hy0
  obtain ⟨m, hm⟩ : ∃ m, years * 12 = m + 1 := ⟨years * 12 - 1, by omega⟩
  have hinv := @mortgagePayment_invariant P rate years hrate hy0
  rw [hm] at hinv
  rw [hm]
  exact (scheduleAux_exact (rate / 100 / 12) (mortgagePayment P rate years)
    hr hM m 1 P hinv).2

/-- The concrete zero-rate schedule used to witness claim C1. -/
def c1Schedule : List Row := (amortization_schedule 1200 0 1 0).getD []

/-- Witness for claim C1 at principal 1200, rate 0, one year, no extra
payment. -/
theorem C1_witness :
    amortization_schedule 1200 0 1 0 = some c1Schedule
      ∧ sumPrincipal c1Schedule = 1200 := by
  have h1 : amortization_schedule 1200 0 1 0 = some c1Schedule :=
    eq_some_getD _ [] (amortization_schedule_isSome 1200 0 0 1)
  exact ⟨h1, C1_principal_sum_zero_extra 1200 0 1 (by norm_num)
    (by norm_num) (by norm_num) c1Schedule h1⟩

/-- Claim C2 (counterexample): `calculate_mortgage` does not fail on a
non-positive principal: at principal -1200 it silently returns the
payment -100 and `amortization_schedule` emits a garbage row with
negative principal component instead of reporting an error. -/
theorem C2_counterexample :
    calculate_mortgage (-1200) 0 1 0 = some (-100)
      ∧ amortization_schedule (-1200) 0 1 0 = some [⟨1, -100, 0, 0⟩] := by
  constructor
  · norm_num [calculate_mortgage]
  · norm_num [amortization_schedule, calculate_mortgage, scheduleAux]

/-- Claim C2 (amended): the engine performs no input validation.  With
`years = 0` the division by zero makes `calculate_mortgage` fail (an
unhandled `ZeroDivisionError`, not an `InvalidInputError`); for any
`years >= 1` it succeeds for every principal, including non-positive
ones, and `amortization_schedule` likewise returns rows. -/
theorem C2_no_validation (P rate extra : ℚ) (years : ℕ) :
    calculate_mortgage P rate 0 extra = none
      ∧ (1 ≤ years →
          (calculate_mortgage P rate years extra).isSome = true
            ∧ (amortization_schedule P rate years extra).isSome = true) := by
  refine ⟨calculate_mortgage_zero_years P rate extra, ?_⟩
  intro hy
  have hy0 : years ≠ 0 := by omega
  rw [calculate_mortgage_eq P rate extra hy0, amortization_schedule_eq hy0]
  exact ⟨rfl, rfl⟩

/-- Witness for claim C2 at principal -1200 (invalid input), rate 0,
one year. -/
theorem C2_witness :
    calculate_mortgage (-1200) 0 0 0 = none
      ∧ (calculate_mortgage (-1200) 0 1 0).isSome = true
      ∧ (amortization_schedule (-1200) 0 1 0).isSome = true :=
  ⟨(C2_no_validation (-1200) 0 0 0).1,
   ((C2_no_validation (-1200) 0 0 1).2 (by norm_num)).1,
   ((C2_no_validation (-1200) 0 0 1).2 (by norm_num)).2⟩

/-- Claim C3: for every valid `LoanParameters` with a positive rate the
balances of the schedule are non-increasing starting from the principal,
never negative, and the last emitted balance is exactly 0, reached on or
before period `years * 12`. -/
theorem C3_balances_monotone_to_zero (P rate extra : ℚ) (years : ℕ)
    (hP : 0 < P) (hrate : 0 < rate) (hy : 1 ≤ years) (hextra : 0 ≤ extra) :
    ∀ l, amortization_schedule P rate years extra = some l →
      List.Chain' (fun x y => y ≤ x) (P :: l.map Row.balance)
        ∧ (∀ q ∈ l.map Row.balance, 0 ≤ q)
        ∧ (l.map Row.balance).getLast? = some 0
        ∧ l.length ≤ years * 12 := by
  intro l hl
  have hy0 : years ≠ 0 := by omega
  rw [amortization_schedule_eq hy0] at hl
  simp only [Option.some.injEq] at hl
  subst hl
  have hr : 0 ≤ rate / 100 / 12 := by positivity
  have hMs : 0 < mortgagePayment P rate years :=
    mortgagePayment_pos hP hrate.le hy0
  have hMM : mortgagePayment P rate years
      ≤ mortgagePayment P rate years + extra := by linarith
  obtain ⟨m, hm⟩ : ∃ m, years * 12 = m + 1 := ⟨years * 12 - 1, by omega⟩
  have hinv0 := @mortgagePayment_invariant P rate years hrate.le hy0
  rw [hm] at hinv0
  rw [hm]
  obtain ⟨c1, c2, c3⟩ := scheduleAux_bounded (rate / 100 / 12)
    (mortgagePayment P rate years + extra) (mortgagePayment P rate years)
    hr hMs hMM m 1 P hP (le_of_eq hinv0)
  exact ⟨c1, c2, c3, scheduleAux_length_le _ _ _ _ _⟩

/-- The concrete positive-rate schedule used to witness claim C3. -/
def c3Schedule : List Row := (amortization_schedule 1200 1200 1 0).getD []

/-- Witness for claim C3 at principal 1200, annual rate 1200 percent
(monthly factor 2), one year. -/
theorem C3_witness :
    amortization_schedule 1200 1200 1 0 = some c3Schedule
      ∧ List.Chain' (fun x y => y ≤ x) (1200 :: c3Schedule.map Row.balance)
      ∧ (c3Schedule.map Row.balance).getLast? = some 0
      ∧ c3Schedule.length ≤ 1 * 12 := by
  have h1 : amortization_schedule 1200 1200 1 0 = some c3Schedule :=
    eq_some_getD _ [] (amortization_schedule_isSome 1200 1200 0 1)
  obtain ⟨d1, d2, d3, d4⟩ := C3_balances_monotone_to_zero 1200 1200 0 1
    (by norm_num) (by norm_num) (by norm_num) (by norm_num) c3Schedule h1
  exact ⟨h1, d1, d3, d4⟩

/-- Claim C4 (counterexample): with a positive extra payment the value
returned by `calculate_mortgage` at zero rate is not `P / n`: for
principal 1200, one year and extra payment 50 it returns 150, not 100. -/
theorem C4_counterexample :
    calculate_mortgage 1200 0 1 50 = some 150
      ∧ (150 : ℚ) ≠ 1200 / ((1 * 12 : ℕ) : ℚ) := by
  constructor
  · norm_num [calculate_mortgage]
  · norm_num

/-- Claim C4 (amended): at zero rate `calculate_mortgage` returns exactly
`P / (years*12) + extra_payment` (the extra payment is added
unconditionally), and every schedule row has zero interest. -/
theorem C4_zero_rate_payment (P extra : ℚ) (years : ℕ)
    (hP : 0 < P) (hextra : 0 ≤ extra) (hy : 1 ≤ years) :
    calculate_mortgage P 0 years extra
        = some (P / ((years * 12 : ℕ) : ℚ) + extra)
      ∧ ∀ l, amortization_schedule P 0 years extra = some l →
          ∀ row ∈ l, row.interest = 0 := by
  have hy0 : years ≠ 0 := by omega
  have h0 : (0 : ℚ) / 100 / 12 = 0 := by norm_num
  constructor
  · rw [calculate_mortgage_eq P 0 extra hy0]
    have hneg : ¬ (0 : ℚ) < 0 / 100 / 12 := by norm_num
    rw [mortgagePayment, if_neg hneg]
  · intro l hl row hrow
    rw [amortization_schedule_eq hy0] at hl
    simp only [Option.some.injEq] at hl
    subst hl
    rw [h0] at hrow
    exact scheduleAux_interest_zero _ _ _ _ row hrow

/-- Witness for claim C4 at principal 1200, one year, extra payment 50. -/
theorem C4_witness :
    calculate_mortgage 1200 0 1 50 = some (1200 / ((1 * 12 : ℕ) : ℚ) + 50) :=
  (C4_zero_rate_payment 1200 50 1 (by norm_num) (by norm_num)
    (by norm_num)).1

/-- Claim C5 (counterexample): a positive extra payment does not always
strictly shorten the schedule.  At principal 1200, zero rate, one year,
the schedule with extra payment 1 has 12 rows, exactly as many as the
schedule with extra payment 0. -/
theorem C5_counterexample :
    (amortization_schedule 1200 0 1 1).map List.length = some 12
      ∧ (amortization_schedule 1200 0 1 0).map List.length = some 12 := by
  constructor
  · norm_num [amortization_schedule, calculate_mortgage, scheduleAux]
  · norm_num [amortization_schedule, calculate_mortgage, scheduleAux]

/-- Claim C5 (amended): a positive extra payment never lengthens the
schedule: the schedule with `extra_payment > 0` has at most as many rows
as the schedule with `extra_payment = 0` (which has exactly
`years * 12`); the decrease need not be strict. -/
theorem C5_extra_never_lengthens (P rate extra : ℚ) (years : ℕ)
    (hP : 0 < P) (hrate : 0 ≤ rate) (hy : 1 ≤ years) (hextra : 0 < extra) :
    ∀ l l0, amortization_schedule P rate years extra = some l →
      amortization_schedule P rate years 0 = some l0 →
      l.length ≤ l0.length := by
  intro l l0 hl hl0
  have hy0 : years ≠ 0 := by omega
  rw [amortization_schedule_eq hy0] at hl hl0
  simp only [Option.some.injEq] at hl hl0
  subst hl
  subst hl0
  have hr : 0 ≤ rate / 100 / 12 := by positivity
  have hM : 0 < mortgagePayment P rate years :=
    mortgagePayment_pos hP hrate hy0
  obtain ⟨m, hm⟩ : ∃ m, years * 12 = m + 1 := ⟨years * 12 - 1, by omega⟩
  have hinv := @mortgagePayment_invariant P rate years hrate hy0
  rw [hm] at hinv
  have hlen0 : (scheduleAux (rate / 100 / 12)
      (mortgagePayment P rate years + 0) (years * 12) 1 P).length
      = years * 12 := by
    rw [add_zero, hm]
    exact (scheduleAux_exact (rate / 100 / 12)
      (mortgagePayment P rate years) hr hM m 1 P hinv).1
  rw [hlen0]
  exact scheduleAux_length_le _ _ _ _ _

/-- The concrete schedules used to witness claim C5. -/
def c5ScheduleExtra : List Row := (amortization_schedule 1200 0 1 1200).getD []

/-- The concrete no-extra schedule used to witness claim C5. -/
def c5ScheduleBase : List Row := (amortization_schedule 1200 0 1 0).getD []

/-- Witness for claim C5 at principal 1200, rate 0, one year, extra
payment 1200. -/
theorem C5_witness :
    amortization_schedule 1200 0 1 1200 = some c5ScheduleExtra
      ∧ amortization_schedule 1200 0 1 0 = some c5ScheduleBase
      ∧ c5ScheduleExtra.length ≤ c5ScheduleBase.length := by
  have h1 : amortization_schedule 1200 0 1 1200 = some c5ScheduleExtra :=
    eq_some_getD _ [] (amortization_schedule_isSome 1200 0 1200 1)
  have h2 : amortization_schedule 1200 0 1 0 = some c5ScheduleBase :=
    eq_some_getD _ [] (amortization_schedule_isSome 1200 0 0 1)
  exact ⟨h1, h2, C5_extra_never_lengthens 1200 0 1200 1 (by norm_num)
    (by norm_num) (by norm_num) (by norm_num) c5ScheduleExtra
    c5ScheduleBase h1 h2⟩

/-- Claim C6 (counterexample): `generate_amortization_schedule` is not a
function of its declared arguments: with identical arguments but a
different value of the script-global `emi` it returns different row
sequences (12 rows when `emi = 100`, 6 rows when `emi = 200`). -/
theorem C6_counterexample :
    generate_amortization_schedule ⟨100⟩ 1200 0 1
      ≠ generate_amortization_schedule ⟨200⟩ 1200 0 1 := by
  intro h
  have h12 : (generate_amortization_schedule ⟨100⟩ 1200 0 1).length = 12 := by
    norm_num [generate_amortization_schedule, genScheduleAux]
  have h6 : (generate_amortization_schedule ⟨200⟩ 1200 0 1).length = 6 := by
    norm_num [generate_amortization_schedule, genScheduleAux]
  rw [h, h6] at h12
  exact absurd h12 (by norm_num)

/-- Claim C6 (amended): `amortization_schedule` is a pure function of its
declared arguments — its result is unchanged under any change of the
script-global state — while `generate_amortization_schedule` is a pure
function of its declared arguments together with the script-global
`emi`, but not of the declared arguments alone. -/
theorem C6_purity (P rate extra : ℚ) (years : ℕ) :
    (∀ g g' : GlobalEnv,
        amortization_schedule_env g P rate years extra
          = amortization_schedule_env g' P rate years extra)
      ∧ (∀ g g' : GlobalEnv, g.emi = g'.emi →
          generate_amortization_schedule g P rate years
            = generate_amortization_schedule g' P rate years) := by
  constructor
  · intro g g'
    rfl
  · intro g g' h
    cases g with
    | mk e =>
      cases g' with
      | mk e' =>
        have h' : e = e' := h
        subst h'
        rfl

/-- Witness for claim C6: two different global states leave the mortgage
schedule unchanged, and equal `emi` values give equal eligibility
schedules. -/
theorem C6_witness :
    amortization_schedule_env ⟨100⟩ 1200 0 1 0
        = amortization_schedule_env ⟨200⟩ 1200 0 1 0
      ∧ generate_amortization_schedule ⟨300⟩ 1200 0 1
        = generate_amortization_schedule ⟨300⟩ 1200 0 1 :=
  ⟨(C6_purity 1200 0 0 1).1 ⟨100⟩ ⟨200⟩,
   (C6_purity 1200 0 0 1).2 ⟨300⟩ ⟨300⟩ rfl⟩

/-- Claim C7: the post-clamp adjustment `principal += balance` in
`amortization_schedule` is dead code — removing it yields the same
schedule — and consequently every returned row, the final clamped row
included, satisfies `principal + interest = periodic payment`. -/
theorem C7_adjustment_dead_row_sums (P rate extra : ℚ) (years : ℕ) :
    amortization_schedule P rate years extra
        = amortization_schedule_noadjust P rate years extra
      ∧ ∀ M l, calculate_mortgage P rate years extra = some M →
          amortization_schedule P rate years extra = some l →
          ∀ row ∈ l, row.principal + row.interest = M := by
  constructor
  · simp only [amortization_schedule, amortization_schedule_noadjust]
    by_cases hn : years * 12 = 0
    · rw [if_pos hn, if_pos hn]
    · rw [if_neg hn, if_neg hn]
      cases hc : calculate_mortgage P rate years extra with
      | none => rfl
      | some M =>
        show some (scheduleAux (rate / 100 / 12) M (years * 12) 1 P)
          = some (scheduleAuxNoAdjust (rate / 100 / 12) M (years * 12) 1 P)
        rw [scheduleAux_eq_noAdjust]
  · intro M l hM hl
    by_cases hy0 : years = 0
    · subst hy0
      rw [calculate_mortgage_zero_years] at hM
      cases hM
    · rw [calculate_mortgage_eq P rate extra hy0] at hM
      rw [amortization_schedule_eq hy0] at hl
      simp only [Option.some.injEq] at hM hl
      subst hM
      subst hl
      intro row hrow
      exact scheduleAux_row_sum _ _ _ _ _ row hrow

/-- The concrete clamped schedule used to witness claim C7. -/
def c7Schedule : List Row := (amortization_schedule 1200 0 1 1200).getD []

/-- Witness for claim C7 at principal 1200, rate 0, one year, extra
payment 1200: the single clamped row still sums to the payment 1300. -/
theorem C7_witness :
    amortization_schedule 1200 0 1 1200
        = amortization_schedule_noadjust 1200 0 1 1200
      ∧ calculate_mortgage 1200 0 1 1200 = some 1300
      ∧ amortization_schedule 1200 0 1 1200 = some c7Schedule
      ∧ ∀ row ∈ c7Schedule, row.principal + row.interest = 1300 := by
  have hM : calculate_mortgage 1200 0 1 1200 = some 1300 := by
    norm_num [calculate_mortgage]
  have h1 : amortization_schedule 1200 0 1 1200 = some c7Schedule :=
    eq_some_getD _ [] (amortization_schedule_isSome 1200 0 1200 1)
  exact ⟨(C7_adjustment_dead_row_sums 1200 0 1200 1).1, hM, h1,
    (C7_adjustment_dead_row_sums 1200 0 1200 1).2 1300 c7Schedule hM h1⟩

/-- Claim C8: `amortization_schedule` is total (the loop always
terminates — it is structural recursion on the month counter) and the
returned table, when the call does not raise, has at most `years * 12`
rows. -/
theorem C8_schedule_length_bounded (P rate extra : ℚ) (years : ℕ) :
    (amortization_schedule P rate years extra).isSome = true
      ∧ ∀ l, amortization_schedule P rate years extra = some l →
          l.length ≤ years * 12 := by
  refine ⟨amortization_schedule_isSome P rate extra years, ?_⟩
  intro l hl
  by_cases hy0 : years = 0
  · subst hy0
    have h0 : amortization_schedule P rate 0 extra = some [] := rfl
    rw [h0] at hl
    simp only [Option.some.injEq] at hl
    subst hl
    simp
  · rw [amortization_schedule_eq hy0] at hl
    simp only [Option.some.injEq] at hl
    subst hl
    exact scheduleAux_length_le _ _ _ _ _

/-- The concrete schedule used to witness claim C8. -/
def c8Schedule : List Row := (amortization_schedule 1200 1200 1 0).getD []

/-- Witness for claim C8 at principal 1200, annual rate 1200 percent,
one year. -/
theorem C8_witness :
    (amortization_schedule 1200 1200 1 0).isSome = true
      ∧ c8Schedule.length ≤ 1 * 12 := by
  have h1 : amortization_schedule 1200 1200 1 0 = some c8Schedule :=
    eq_some_getD _ [] (amortization_schedule_isSome 1200 1200 0 1)
  exact ⟨(C8_schedule_length_bounded 1200 1200 0 1).1,
    (C8_schedule_length_bounded 1200 1200 0 1).2 c8Schedule h1⟩

/-- Claim C9: with no extra payment the two payment operations agree:
`calculate_mortgage P rate years 0 = calculate_emi P rate years` for
every positive principal, non-negative rate and positive term. -/
theorem C9_mortgage_eq_emi (P rate : ℚ) (years : ℕ)
    (hP : 0 < P) (hrate : 0 ≤ rate) (hy : 1 ≤ years) :
    calculate_mortgage P rate years 0 = calculate_emi P rate years := by
  have hy0 : years * 12 ≠ 0 := by omega
  have hr : 0 ≤ rate / 100 / 12 := by positivity
  simp only [calculate_mortgage, calculate_emi]
  rcases hr.lt_or_eq with hpos | hzero
  · have hne : ¬ rate / 100 / 12 = 0 := by
      exact fun h => absurd (h ▸ hpos) (lt_irrefl 0)
    rw [if_pos hpos, if_neg hne]
    have hgt : (1 : ℚ) < 1 + rate / 100 / 12 := by linarith
    have hdne : (1 + rate / 100 / 12) ^ (years * 12) - 1 ≠ 0 :=
      sub_ne_zero.mpr (ne_of_gt (one_lt_pow_of_lt hgt hy0))
    rw [if_neg hdne, if_neg hdne, add_zero]
  · have hnlt : ¬ (0 : ℚ) < rate / 100 / 12 := by
      rw [← hzero]
      exact lt_irrefl 0
    rw [if_neg hnlt, if_pos hzero.symm]
    have hcast : ¬ ((years * 12 : ℕ) : ℚ) = 0 := Nat.cast_ne_zero.mpr hy0
    rw [if_neg hcast, if_neg hcast, add_zero]

/-- Witness for claim C9 at principal 1200, rate 0, one year. -/
theorem C9_witness :
    calculate_mortgage 1200 0 1 0 = calculate_emi 1200 0 1 :=
  C9_mortgage_eq_emi 1200 0 1 (by norm_num) (by norm_num) (by norm_num)

/-- Claim C10: under the documented precondition `calculate_mortgage`
never divides by zero: it returns a value, the annuity denominator is
strictly positive when the monthly rate is positive, and the divisor
`years * 12` is strictly positive when the monthly rate is zero. -/
theorem C10_no_division_by_zero (P rate extra : ℚ) (years : ℕ)
    (hP : 0 < P) (hrate : 0 ≤ rate) (hy : 1 ≤ years) :
    (calculate_mortgage P rate years extra).isSome = true
      ∧ (0 < rate / 100 / 12 →
          0 < (1 + rate / 100 / 12) ^ (years * 12) - 1)
      ∧ (rate / 100 / 12 = 0 → 0 < ((years * 12 : ℕ) : ℚ)) := by
  have hy0 : years ≠ 0 := by omega
  refine ⟨?_, ?_, ?_⟩
  · rw [calculate_mortgage_eq P rate extra hy0]
    rfl
  · intro hr
    have hgt : (1 : ℚ) < 1 + rate / 100 / 12 := by linarith
    have hpow := one_lt_pow_of_lt hgt (show years * 12 ≠ 0 by omega)
    linarith
  · intro _
    exact_mod_cast Nat.pos_of_ne_zero (show years * 12 ≠ 0 by omega)

/-- Witness for claim C10 at principal 1200, annual rate 1200 percent,
one year. -/
theorem C10_witness :
    (calculate_mortgage 1200 1200 1 0).isSome = true
      ∧ 0 < (1 + (1200 : ℚ) / 100 / 12) ^ (1 * 12) - 1 :=
  ⟨(C10_no_division_by_zero 1200 1200 0 1 (by norm_num) (by norm_num)
      (by norm_num)).1,
   (C10_no_division_by_zero 1200 1200 0 1 (by norm_num) (by norm_num)
      (by norm_num)).2.1 (by norm_num)⟩

end Claims

end AG
